import Mathlib

/-!
Verification of the in-memory mood-entry store and its derived-view
computations of the Simple-Mood-Tracker repository.

Shallow embedding conventions:
- A day-key (the YYYY-MM-DD string) is modelled as an integer day number.
  The source compares day-keys only by string equality and by comparison of
  the corresponding Date objects at local midnight, so equality and order of
  the integer day numbers model all observable behaviour.
- JavaScript numbers that carry averages are modelled as rationals.
- Array.prototype.sort with a comparator on a copied array is modelled by
  List.insertionSort with the corresponding relation; the code never relies
  on tie order between distinct entries of equal key beyond stability, and
  insertion sort is stable.
- The DOM, logging, animation and timer layers are not modelled; only the
  store mutations and the pure computations the claims are about.
-/

set_option maxHeartbeats 1000000

/-! ### Generic sorting helpers (model of Array.sort with a numeric comparator) -/

/-- Relation of a descending sort by an integer key, the model of the
comparator (a, b) => key(b) - key(a). -/
def keyGe {α : Type} (key : α → Int) (a b : α) : Prop := key b ≤ key a

/-- Relation of an ascending sort by an integer key, the model of the
comparator (a, b) => key(a) - key(b). -/
def keyLe {α : Type} (key : α → Int) (a b : α) : Prop := key a ≤ key b

instance {α : Type} (key : α → Int) : DecidableRel (keyGe key) :=
  fun a b => inferInstanceAs (Decidable (key b ≤ key a))

instance {α : Type} (key : α → Int) : DecidableRel (keyLe key) :=
  fun a b => inferInstanceAs (Decidable (key a ≤ key b))

instance {α : Type} (key : α → Int) : IsTotal α (keyGe key) :=
  ⟨fun a b => le_total (key b) (key a)⟩

instance {α : Type} (key : α → Int) : IsTotal α (keyLe key) :=
  ⟨fun a b => le_total (key a) (key b)⟩

instance {α : Type} (key : α → Int) : IsTrans α (keyGe key) :=
  ⟨fun _ _ _ h1 h2 => le_trans h2 h1⟩

instance {α : Type} (key : α → Int) : IsTrans α (keyLe key) :=
  ⟨fun _ _ _ h1 h2 => le_trans h1 h2⟩

/-- Sort a list descending by an integer key. -/
def sortDescBy {α : Type} (key : α → Int) (l : List α) : List α :=
  List.insertionSort (keyGe key) l

/-- Sort a list ascending by an integer key. -/
def sortAscBy {α : Type} (key : α → Int) (l : List α) : List α :=
  List.insertionSort (keyLe key) l

theorem sortDescBy_perm {α : Type} (key : α → Int) (l : List α) :
    List.Perm (sortDescBy key l) l :=
  List.perm_insertionSort (keyGe key) l

theorem sortAscBy_perm {α : Type} (key : α → Int) (l : List α) :
    List.Perm (sortAscBy key l) l :=
  List.perm_insertionSort (keyLe key) l

theorem sortDescBy_sorted {α : Type} (key : α → Int) (l : List α) :
    List.Sorted (keyGe key) (sortDescBy key l) :=
  List.sorted_insertionSort (keyGe key) l

theorem mem_sortDescBy {α : Type} (key : α → Int) {l : List α} {x : α} :
    x ∈ sortDescBy key l ↔ x ∈ l :=
  (sortDescBy_perm key l).mem_iff

theorem mem_sortAscBy {α : Type} (key : α → Int) {l : List α} {x : α} :
    x ∈ sortAscBy key l ↔ x ∈ l :=
  (sortAscBy_perm key l).mem_iff

/-! ### Data model, single-user variant (app.js)

One mood entry per calendar day: date is the day-key, overallMood the 1-10
rating, attributes the five mandatory 1-10 sliders, notes the free text. -/

structure Attributes where
  energy : Int
  sleep : Int
  stress : Int
  productivity : Int
  social : Int
deriving DecidableEq, Repr

structure MoodEntry where
  date : Int
  overallMood : Int
  attributes : Attributes
  notes : String
deriving DecidableEq, Repr

namespace App

/-! ### Entry store write path (app.js saveEntry, lines 314-326)

The source looks up existingIndex = moodEntries.findIndex(e => e.date ===
entry.date), replaces moodEntries[existingIndex] when found and pushes the
entry otherwise, then sorts by date, newest first.  upsertByDate is that
replace-first-match-or-append step written as structural recursion. -/

def upsertByDate (l : List MoodEntry) (e : MoodEntry) : List MoodEntry :=
  match l with
  | [] => [e]
  | x :: t => if x.date = e.date then e :: t else x :: upsertByDate t e

/-- app.js saveEntry, store part: upsert by day-key, then sort by date with
newest first (the comparator new Date(b.date) - new Date(a.date)). -/
def saveEntry (s : List MoodEntry) (e : MoodEntry) : List MoodEntry :=
  sortDescBy (fun x => x.date) (upsertByDate s e)

/-! ### Streak calculation (app.js calculateStreak, lines 185-209; the
script.js copy at lines 275-298 is textually identical modulo field names) -/

/-- The loop of calculateStreak over the date-sorted entries: an entry equal
to the cursor day extends the streak and moves the cursor one day back, an
entry strictly before the cursor ends the loop, and a later entry (possible
only for dates after today or duplicate day-keys) is skipped. -/
def streakWalk : List Int → Int → Nat
  | [], _ => 0
  | d :: rest, cur =>
    if d = cur then streakWalk rest (cur - 1) + 1
    else if d < cur then 0
    else streakWalk rest cur

/-- Whether some entry carries the given day-key. -/
def hasEntryOn (entries : List MoodEntry) (d : Int) : Bool :=
  entries.any (fun e => decide (e.date = d))

/-- app.js calculateStreak: zero for the empty store, otherwise walk the
entries sorted by date descending starting from today. -/
def calculateStreak (entries : List MoodEntry) (today : Int) : Nat :=
  if entries.length = 0 then 0
  else streakWalk ((sortDescBy (fun e => e.date) entries).map (fun e => e.date)) today

/-! ### Period averages (app.js updateStatistics, lines 603-645)

The weekly branch filters entries with entryDate >= weekAgo where weekAgo is
today minus 7 days, the monthly branch uses today minus 30 days; there is no
upper bound in the filter.  A nonempty selection yields the arithmetic mean
of overallMood, an empty selection yields the dash sentinel, modelled as
none.  The empty-store early return of updateStatistics also yields the
sentinel. -/

def periodAverage (entries : List MoodEntry) (today : Int) (w : Int) : Option ℚ :=
  if entries.length = 0 then none
  else
    let inWindow := entries.filter (fun e => decide (today - w ≤ e.date))
    if 0 < inWindow.length then
      some ((inWindow.foldl (fun acc e => acc + (e.overallMood : ℚ)) 0) / (inWindow.length : ℚ))
    else none

/-! ### Daily chart series (app.js prepareGraphData, daily branch,
lines 379-399)

For i = 6 down to 0 the source takes the day i days before today, looks the
entry up by day-key and pushes entry.overallMood when found and null when
not, so slot j of the result is the day 6 - j days before today, oldest
first.  The whole function returns null when the store is empty. -/

def prepareGraphDataDaily (entries : List MoodEntry) (today : Int) :
    Option (List (Option Int)) :=
  if entries.length = 0 then none
  else some ((List.range 7).map (fun j =>
    match entries.find? (fun e => decide (e.date = today - (6 - (j : Int)))) with
    | some e => some e.overallMood
    | none => none))

/-- Per-attribute mean over the whole store (app.js updateAttributeBars);
none models the empty-store guard. -/
def attrAverage (entries : List MoodEntry) (f : Attributes → Int) : Option ℚ :=
  if entries.length = 0 then none
  else some ((entries.foldl (fun acc e => acc + (f e.attributes : ℚ)) 0) / (entries.length : ℚ))

/-! ### Sample data seeding (app.js addSampleData, lines 1031-1089)

When the store is empty the source pushes five fixed entries dated 1 to 5
days before today and then sorts by date, newest first; a nonempty store is
returned untouched. -/

def sampleEntries (today : Int) : List MoodEntry :=
  [ { date := today - 1, overallMood := 8, attributes := ⟨7, 8, 3, 9, 7⟩,
      notes := "Great day! Finished all my tasks and had a nice walk in the evening." },
    { date := today - 2, overallMood := 6, attributes := ⟨5, 6, 6, 7, 5⟩,
      notes := "Okay day, felt a bit tired but managed to stay productive." },
    { date := today - 3, overallMood := 9, attributes := ⟨9, 9, 2, 8, 9⟩,
      notes := "Amazing day! Spent time with friends and felt really energized." },
    { date := today - 4, overallMood := 5, attributes := ⟨4, 5, 7, 5, 4⟩,
      notes := "Challenging day with some stressful moments." },
    { date := today - 5, overallMood := 7, attributes := ⟨6, 7, 4, 7, 6⟩,
      notes := "Good day overall, feeling balanced." } ]

def addSampleData (s : List MoodEntry) (today : Int) : List MoodEntry :=
  if 0 < s.length then s
  else sortDescBy (fun e => e.date) (s ++ sampleEntries today)

end App

/-! ### Data model, multi-user variant (script.js)

Each entry additionally carries an id, the owning user id and name, the
submission time and the emoji key; value is the 1-10 rating.  The redundant
ISO timestamp field duplicates date and time and is not read anywhere, so it
is not modelled. -/

structure UserEntry where
  id : String
  userId : String
  userName : String
  date : Int
  timeHour : Int
  timeMin : Int
  mood : String
  value : Int
  attributes : Attributes
  notes : String
deriving DecidableEq, Repr

structure User where
  id : String
  name : String
  avatar : String
deriving DecidableEq, Repr

namespace Script

/-- The mutable module state of script.js that the store operations touch:
the profile list, the per-user scope table allUserData, the active user and
the active working copy moodEntries.  The form-only fields (selectedMood,
sliders, notes box) are presentation state and are passed as operation
inputs instead. -/
structure AppState where
  users : List User
  allUserData : List (String × List UserEntry)
  currentUser : Option User
  moodEntries : List UserEntry
deriving DecidableEq, Repr

/-- Read of allUserData[k], the JavaScript object indexing. -/
def tblGet (t : List (String × List UserEntry)) (k : String) : Option (List UserEntry) :=
  match t.find? (fun p => decide (p.1 = k)) with
  | some p => some p.2
  | none => none

/-- Write of allUserData[k] = v, the JavaScript object assignment. -/
def tblSet (t : List (String × List UserEntry)) (k : String) (v : List UserEntry) :
    List (String × List UserEntry) :=
  match t with
  | [] => [(k, v)]
  | p :: rest => if p.1 = k then (k, v) :: rest else p :: tblSet rest k v

/-- The inputs submitMood reads outside the store: the selected mood, the
five slider values, the notes text, the clock-supplied day-key and time and
the Date.now suffix of the generated id. -/
structure MoodInput where
  mood : String
  value : Int
  energy : Int
  sleep : Int
  stress : Int
  productivity : Int
  social : Int
  notes : String
  date : Int
  timeHour : Int
  timeMin : Int
  stamp : String
deriving DecidableEq, Repr

/-- The entry object submitMood builds (script.js lines 455-472). -/
def mkUserEntry (u : User) (c : MoodInput) : UserEntry :=
  { id := u.id ++ "_" ++ c.stamp
    userId := u.id
    userName := u.name
    date := c.date
    timeHour := c.timeHour
    timeMin := c.timeMin
    mood := c.mood
    value := c.value
    attributes := ⟨c.energy, c.sleep, c.stress, c.productivity, c.social⟩
    notes := c.notes }

/-- The upsert step of submitMood (script.js lines 477-488): findIndex by
day-key; when found, the cross-user guard aborts the whole submission if the
entry at that index is tagged with a foreign user id, otherwise the entry is
replaced; when not found the entry is pushed.  none models the aborting
early return of the guard. -/
def upsertUser (l : List UserEntry) (e : UserEntry) (uid : String) :
    Option (List UserEntry) :=
  match l with
  | [] => some [e]
  | x :: t =>
    if x.date = e.date then
      if x.userId ≠ "" ∧ x.userId ≠ uid then none else some (e :: t)
    else
      match upsertUser t e uid with
      | none => none
      | some r => some (x :: r)

/-- script.js submitMood, store part (lines 410-523): the no-user and
no-mood-selected guards return unchanged, otherwise the built entry is
upserted into the active set, the set is sorted newest first and written
back to the scope table under the active user id. -/
def submitMood (s : AppState) (sel : Option MoodInput) : AppState :=
  match s.currentUser with
  | none => s
  | some u =>
    match sel with
    | none => s
    | some c =>
      match upsertUser s.moodEntries (mkUserEntry u c) u.id with
      | none => s
      | some l =>
        let es := sortDescBy (fun e => e.date) l
        { s with moodEntries := es, allUserData := tblSet s.allUserData u.id es }

/-- script.js selectUser (lines 1269-1315): unknown ids are a no-op; when a
different user was active its working copy is saved back to the scope table
first; then the requested scope is loaded as the new active set and entries
tagged with a foreign user id are filtered out defensively. -/
def selectUser (s : AppState) (uid : String) : AppState :=
  match s.users.find? (fun u => decide (u.id = uid)) with
  | none => s
  | some user =>
    let tbl :=
      match s.currentUser with
      | some cu => if cu.id ≠ uid then tblSet s.allUserData cu.id s.moodEntries
                   else s.allUserData
      | none => s.allUserData
    let loaded := (tblGet tbl user.id).getD []
    let invalid := loaded.filter (fun e => decide (e.userId ≠ "") && decide (e.userId ≠ user.id))
    let cleaned :=
      if 0 < invalid.length then
        loaded.filter (fun e => decide (e.userId = "") || decide (e.userId = user.id))
      else loaded
    { users := s.users, allUserData := tbl, currentUser := some user,
      moodEntries := cleaned }

/-- script.js switchUser (lines 1351-1383): save the active working copy
back to the scope table, then clear the active user and the active set. -/
def switchUser (s : AppState) : AppState :=
  match s.currentUser with
  | some cu =>
    { s with allUserData := tblSet s.allUserData cu.id s.moodEntries,
             currentUser := none, moodEntries := [] }
  | none => { s with currentUser := none, moodEntries := [] }

/-- script.js prepareGraphData, daily branch (lines 888-907): one slot per
day for the last 7 days, oldest first; a day with an entry yields its value
and a day without yields the number 5. -/
def prepareGraphDataDaily (entries : List UserEntry) (today : Int) : List Int :=
  (List.range 7).map (fun j =>
    match entries.find? (fun e => decide (e.date = today - (6 - (j : Int)))) with
    | some e => e.value
    | none => 5)

/-- The five sample entries of script.js addSampleData for a given user;
the random seconds component of the sample timestamps is not read anywhere
and is not modelled. -/
def sampleEntries (u : User) (today : Int) : List UserEntry :=
  [ { id := u.id ++ "_sample_1", userId := u.id, userName := u.name, date := today - 1,
      timeHour := 14, timeMin := 30, mood := "happy", value := 8,
      attributes := ⟨7, 8, 3, 9, 7⟩, notes := "Great day at work!" },
    { id := u.id ++ "_sample_2", userId := u.id, userName := u.name, date := today - 2,
      timeHour := 18, timeMin := 15, mood := "neutral", value := 6,
      attributes := ⟨5, 6, 6, 7, 5⟩, notes := "Okay day overall." },
    { id := u.id ++ "_sample_3", userId := u.id, userName := u.name, date := today - 3,
      timeHour := 10, timeMin := 45, mood := "excited", value := 9,
      attributes := ⟨9, 9, 2, 8, 9⟩, notes := "Amazing weekend!" },
    { id := u.id ++ "_sample_4", userId := u.id, userName := u.name, date := today - 4,
      timeHour := 20, timeMin := 0, mood := "anxious", value := 4,
      attributes := ⟨4, 5, 8, 5, 4⟩, notes := "Stressful day." },
    { id := u.id ++ "_sample_5", userId := u.id, userName := u.name, date := today - 5,
      timeHour := 8, timeMin := 20, mood := "happy", value := 7,
      attributes := ⟨6, 7, 4, 7, 6⟩, notes := "Good balance today." } ]

/-- script.js addSampleData (lines 1523-1570): only when a user is active
and its set is empty, push the five samples, sort newest first and save the
set to the scope table. -/
def addSampleData (s : AppState) (today : Int) : AppState :=
  match s.currentUser with
  | none => s
  | some u =>
    if 0 < s.moodEntries.length then s
    else
      let es := sortDescBy (fun e => e.date) (s.moodEntries ++ sampleEntries u today)
      { s with moodEntries := es, allUserData := tblSet s.allUserData u.id es }

end Script

namespace Part000

/-! ### History query pipeline (unnamed variant, displayHistory,
lines 1368-1437)

A single filter selector (all, week, month, good, tough) is applied first,
then the free-text search over notes, then the selected sort.  The week and
month cutoffs are taken from the wall clock without zeroing the time of day,
so the cutoff is modelled as a rational instant measured in days and a
day-key enters the range when its midnight is not before the cutoff. -/

/-- Prefix test on character lists, the first step of the substring test. -/
def startsList : List Char → List Char → Bool
  | [], _ => true
  | _ :: _, [] => false
  | a :: p, b :: l => a = b && startsList p l

/-- Substring test on character lists, the model of String.includes. -/
def occursList (p : List Char) : List Char → Bool
  | [] => startsList p []
  | c :: t => startsList p (c :: t) || occursList p t

/-- notes.toLowerCase().includes(term.toLowerCase()). -/
def inclStr (s pat : String) : Bool :=
  occursList (pat.toList.map Char.toLower) (s.toList.map Char.toLower)

def displayHistory (entries : List MoodEntry) (filt term sortBy : String)
    (now : ℚ) : List MoodEntry :=
  if entries.length = 0 then []
  else
    let afterFilter :=
      if filt = "week" then entries.filter (fun e => decide (now - 7 ≤ (e.date : ℚ)))
      else if filt = "month" then entries.filter (fun e => decide (now - 30 ≤ (e.date : ℚ)))
      else if filt = "good" then entries.filter (fun e => decide (7 ≤ e.overallMood))
      else if filt = "tough" then entries.filter (fun e => decide (e.overallMood ≤ 4))
      else entries
    let afterSearch :=
      if term = "" then afterFilter
      else afterFilter.filter (fun e => decide (e.notes ≠ "") && inclStr e.notes term)
    if sortBy = "newest" then sortDescBy (fun e => e.date) afterSearch
    else if sortBy = "oldest" then sortAscBy (fun e => e.date) afterSearch
    else if sortBy = "highest" then sortDescBy (fun e => e.overallMood) afterSearch
    else if sortBy = "lowest" then sortAscBy (fun e => e.overallMood) afterSearch
    else afterSearch

/-- The filter predicate the selector applies to one entry. -/
def filterPred (filt : String) (now : ℚ) (e : MoodEntry) : Bool :=
  if filt = "week" then decide (now - 7 ≤ (e.date : ℚ))
  else if filt = "month" then decide (now - 30 ≤ (e.date : ℚ))
  else if filt = "good" then decide (7 ≤ e.overallMood)
  else if filt = "tough" then decide (e.overallMood ≤ 4)
  else true

/-- The search predicate: an empty term matches everything, a nonempty term
requires nonempty notes containing the term case-insensitively. -/
def searchPred (term : String) (e : MoodEntry) : Bool :=
  if term = "" then true
  else decide (e.notes ≠ "") && inclStr e.notes term

/-! ### Chart geometry (unnamed variant, drawLineGraph, lines 1006-1095)

The renderer filters the series down to the valid points (non-null values
inside the 1 to 10 domain), keeps their original slot indices for the
horizontal spacing, rounds the pixel coordinates and then builds one
M/L path through all valid points in index order; consecutive path commands
form the drawn segments. -/

/-- Math.round: half rounds up. -/
def jsRound (q : ℚ) : Int := Int.floor (q + 1 / 2)

structure GPoint where
  x : Int
  y : Int
  value : ℚ
deriving DecidableEq, Repr, Inhabited

/-- Pixel position of slot idx carrying value v in a series of total slots:
canvas 800 x 400, padding top 30 right 40 bottom 50 left 60, domain 1 to 10
mapped linearly and inverted, slots evenly spaced over all indices including
the invalid ones. -/
def plottedPoint (total : Nat) (idx : Nat) (v : ℚ) : GPoint :=
  let graphWidth : ℚ := 800 - 60 - 40
  let graphHeight : ℚ := 400 - 30 - 50
  let x : ℚ := 60 + ((idx : ℚ) / ((max (total - 1) 1 : Nat) : ℚ)) * graphWidth
  let y : ℚ := 30 + graphHeight - ((v - 1) / 9) * graphHeight
  ⟨jsRound x, jsRound y, v⟩

/-- The valid data points with their slot indices (drawLineGraph lines
1006-1017). -/
def validData (data : List (Option ℚ)) : List (Nat × ℚ) :=
  data.enum.filterMap (fun p =>
    match p.2 with
    | some v => if 1 ≤ v ∧ v ≤ 10 then some (p.1, v) else none
    | none => none)

/-- The plotted points of the path, in index order. -/
def linePoints (data : List (Option ℚ)) : List GPoint :=
  (validData data).map (fun p => plottedPoint data.length p.1 p.2)

/-- The segments the M/L path draws: each pair of consecutive plotted
points. -/
def pathSegments (data : List (Option ℚ)) : List (GPoint × GPoint) :=
  (linePoints data).zip (linePoints data).tail

end Part000

/-! ### State-transformer view of the aggregation and query reads (app.js)

The aggregation and query functions of the source read the module-level
store; calculateStreak and displayHistory copy the array before sorting it
and no read path assigns the store.  Each read is therefore modelled as a
state transformer returning the possibly-updated store together with the
computed result, translated statement by statement from the source; a
function that sorted the store in place instead of a copy would return a
changed store here. -/

structure TrackerState where
  entries : List MoodEntry
deriving DecidableEq, Repr

/-- The statistics bundle updateStatistics computes. -/
structure StatsBundle where
  weekly : Option ℚ
  monthly : Option ℚ
  streak : Nat
  total : Nat
  energyAvg : Option ℚ
  sleepAvg : Option ℚ
  stressAvg : Option ℚ
  productivityAvg : Option ℚ
  socialAvg : Option ℚ
deriving DecidableEq, Repr

def calculateStreakOp (s : TrackerState) (today : Int) : TrackerState × Nat :=
  (s, App.calculateStreak s.entries today)

def updateStatisticsOp (s : TrackerState) (today : Int) : TrackerState × StatsBundle :=
  (s, { weekly := App.periodAverage s.entries today 7
        monthly := App.periodAverage s.entries today 30
        streak := App.calculateStreak s.entries today
        total := s.entries.length
        energyAvg := App.attrAverage s.entries (fun a => a.energy)
        sleepAvg := App.attrAverage s.entries (fun a => a.sleep)
        stressAvg := App.attrAverage s.entries (fun a => a.stress)
        productivityAvg := App.attrAverage s.entries (fun a => a.productivity)
        socialAvg := App.attrAverage s.entries (fun a => a.social) })

def displayHistoryOp (s : TrackerState) (filt term sortBy : String) (now : ℚ) :
    TrackerState × List MoodEntry :=
  (s, Part000.displayHistory s.entries filt term sortBy now)

/-! ### C1 helper lemmas: the upsert core -/

theorem filter_upsertByDate (e : MoodEntry) :
    ∀ s : List MoodEntry,
      (s.filter (fun x => decide (x.date = e.date))).length ≤ 1 →
      (App.upsertByDate s e).filter (fun x => decide (x.date = e.date)) = [e] := by
  intro s
  induction s with
  | nil => intro _; simp [App.upsertByDate]
  | cons x t ih =>
    intro h
    by_cases hx : x.date = e.date
    · have hcons : (List.filter (fun x => decide (x.date = e.date)) (x :: t)) =
          x :: t.filter (fun x => decide (x.date = e.date)) := by
        simp [List.filter_cons, hx]
      rw [hcons] at h
      have ht : t.filter (fun x => decide (x.date = e.date)) = [] := by
        have hlc := List.length_cons x (t.filter (fun x => decide (x.date = e.date)))
        rw [← List.length_eq_zero]
        omega
      simp [App.upsertByDate, hx, List.filter_cons, ht]
    · have hcons : (List.filter (fun x => decide (x.date = e.date)) (x :: t)) =
          t.filter (fun x => decide (x.date = e.date)) := by
        simp [List.filter_cons, hx]
      rw [hcons] at h
      simp [App.upsertByDate, hx, List.filter_cons, ih h]

theorem length_upsertByDate (e : MoodEntry) :
    ∀ s : List MoodEntry,
      (App.upsertByDate s e).length =
        if s.any (fun x => decide (x.date = e.date)) then s.length else s.length + 1 := by
  intro s
  induction s with
  | nil => simp [App.upsertByDate]
  | cons x t ih =>
    by_cases hx : x.date = e.date
    · simp [App.upsertByDate, hx]
    · simp only [App.upsertByDate, if_neg hx, List.length_cons, ih, List.any_cons]
      simp [hx]
      split <;> simp

theorem upsertUser_spec (e : UserEntry) (uid : String) :
    ∀ l : List UserEntry,
      (∀ x ∈ l, x.userId = "" ∨ x.userId = uid) →
      (l.filter (fun x => decide (x.date = e.date))).length ≤ 1 →
      ∃ r, Script.upsertUser l e uid = some r ∧
        r.filter (fun x => decide (x.date = e.date)) = [e] ∧
        r.length = (if l.any (fun x => decide (x.date = e.date))
                    then l.length else l.length + 1) := by
  intro l
  induction l with
  | nil => intro _ _; exact ⟨[e], by simp [Script.upsertUser], by simp, by simp⟩
  | cons x t ih =>
    intro htag h
    by_cases hx : x.date = e.date
    · have hguard : ¬(x.userId ≠ "" ∧ x.userId ≠ uid) := by
        rcases htag x (List.mem_cons_self x t) with h1 | h1 <;> simp [h1]
      refine ⟨e :: t, by simp [Script.upsertUser, hx, hguard], ?_, by simp [hx]⟩
      have hcons : (List.filter (fun x => decide (x.date = e.date)) (x :: t)) =
          x :: t.filter (fun x => decide (x.date = e.date)) := by
        simp [List.filter_cons, hx]
      rw [hcons] at h
      have ht : t.filter (fun x => decide (x.date = e.date)) = [] := by
        have hlc := List.length_cons x (t.filter (fun x => decide (x.date = e.date)))
        rw [← List.length_eq_zero]
        omega
      simp [List.filter_cons, ht]
    · have hcons : (List.filter (fun x => decide (x.date = e.date)) (x :: t)) =
          t.filter (fun x => decide (x.date = e.date)) := by
        simp [List.filter_cons, hx]
      rw [hcons] at h
      obtain ⟨r, hr, hf, hl⟩ := ih (fun y hy => htag y (List.mem_cons_of_mem x hy)) h
      refine ⟨x :: r, by simp [Script.upsertUser, hx, hr], ?_, ?_⟩
      · simp [List.filter_cons, hx, hf]
      · simp only [List.length_cons, hl, List.any_cons]
        simp [hx]
        split <;> simp

/-- C1: for every store state with at most one entry per day-key and every
candidate entry, the upsert write (app.js saveEntry; script.js submitMood
within the active scope) leaves exactly one entry whose day-key equals the
submitted day-key, that entry is the submitted record in whole, and the
total count is unchanged when the day-key pre-existed and grows by exactly
one when it did not. -/
theorem upsert_unique_by_dayKey :
    (∀ (s : List MoodEntry) (e : MoodEntry),
        (s.filter (fun x => decide (x.date = e.date))).length ≤ 1 →
        (App.saveEntry s e).filter (fun x => decide (x.date = e.date)) = [e]
        ∧ (App.saveEntry s e).length =
            (if s.any (fun x => decide (x.date = e.date)) then s.length else s.length + 1))
  ∧ (∀ (st : Script.AppState) (u : User) (c : Script.MoodInput),
        st.currentUser = some u →
        (∀ x ∈ st.moodEntries, x.userId = "" ∨ x.userId = u.id) →
        (st.moodEntries.filter (fun x => decide (x.date = c.date))).length ≤ 1 →
        (Script.submitMood st (some c)).moodEntries.filter
            (fun x => decide (x.date = c.date)) = [Script.mkUserEntry u c]
        ∧ (Script.submitMood st (some c)).moodEntries.length =
            (if st.moodEntries.any (fun x => decide (x.date = c.date))
             then st.moodEntries.length else st.moodEntries.length + 1)) := by
  constructor
  · intro s e h
    have hperm := sortDescBy_perm (fun x : MoodEntry => x.date) (App.upsertByDate s e)
    constructor
    · have hp := hperm.filter (fun x => decide (x.date = e.date))
      rw [filter_upsertByDate e s h] at hp
      exact List.perm_singleton.mp hp
    · rw [App.saveEntry, hperm.length_eq, length_upsertByDate]
  · intro st u c hcur htag h
    have hdate : (Script.mkUserEntry u c).date = c.date := rfl
    obtain ⟨r, hr, hf, hl⟩ := upsertUser_spec (Script.mkUserEntry u c) u.id
      st.moodEntries htag (by rw [hdate]; exact h)
    have hstate : (Script.submitMood st (some c)).moodEntries =
        sortDescBy (fun e => e.date) r := by
      simp [Script.submitMood, hcur, hr]
    have hperm := sortDescBy_perm (fun x : UserEntry => x.date) r
    rw [hdate] at hf hl
    constructor
    · rw [hstate]
      have hp := hperm.filter (fun x => decide (x.date = c.date))
      rw [hf] at hp
      exact List.perm_singleton.mp hp
    · rw [hstate, hperm.length_eq, hl]

/-- C1 witness: a concrete upsert over a one-entry store replaces in place
and keeps the count. -/
theorem upsert_unique_by_dayKey_witness :
    (App.saveEntry [⟨0, 3, ⟨1, 1, 1, 1, 1⟩, "old"⟩] ⟨0, 9, ⟨2, 2, 2, 2, 2⟩, "new"⟩).filter
        (fun x => decide (x.date = (0 : Int))) =
      [⟨0, 9, ⟨2, 2, 2, 2, 2⟩, "new"⟩]
    ∧ (App.saveEntry [⟨0, 3, ⟨1, 1, 1, 1, 1⟩, "old"⟩] ⟨0, 9, ⟨2, 2, 2, 2, 2⟩, "new"⟩).length = 1 := by
  have h := upsert_unique_by_dayKey.1 [⟨0, 3, ⟨1, 1, 1, 1, 1⟩, "old"⟩]
    ⟨0, 9, ⟨2, 2, 2, 2, 2⟩, "new"⟩ (by decide)
  exact ⟨h.1, by rw [h.2]; decide⟩

/-! ### C2 helper lemmas: the streak walk over a descending date list -/

theorem streakWalk_spec :
    ∀ L : List Int, List.Sorted (fun a b => b ≤ a) L → ∀ cur : Int,
      (∀ i : Nat, i < App.streakWalk L cur → (cur - (i : Int)) ∈ L)
      ∧ (cur - (App.streakWalk L cur : Int)) ∉ L := by
  intro L
  induction L with
  | nil => intro _ cur; simp [App.streakWalk]
  | cons d rest ih =>
    intro hs cur
    have hd : ∀ x ∈ rest, x ≤ d := List.rel_of_sorted_cons hs
    have hrest := hs.of_cons
    by_cases h1 : d = cur
    · subst h1
      obtain ⟨ih1, ih2⟩ := ih hrest (d - 1)
      have hw : App.streakWalk (d :: rest) d = App.streakWalk rest (d - 1) + 1 := by
        simp [App.streakWalk]
      rw [hw]
      constructor
      · intro i hi
        match i with
        | 0 => simp
        | j + 1 =>
          have hj : j < App.streakWalk rest (d - 1) := by omega
          have hcast : d - ((j + 1 : Nat) : Int) = (d - 1) - (j : Int) := by
            push_cast; ring
          rw [hcast]
          exact List.mem_cons_of_mem d (ih1 j hj)
      · intro hmem
        rcases List.mem_cons.mp hmem with heq | hmem2
        · omega
        · have hcast : d - ((App.streakWalk rest (d - 1) + 1 : Nat) : Int) =
              (d - 1) - (App.streakWalk rest (d - 1) : Int) := by
            push_cast; ring
          rw [hcast] at hmem2
          exact ih2 hmem2
    · by_cases h2 : d < cur
      · have hw : App.streakWalk (d :: rest) cur = 0 := by
          simp [App.streakWalk, h1, h2]
        rw [hw]
        refine ⟨by omega, ?_⟩
        intro hmem
        rcases List.mem_cons.mp hmem with heq | hmem2
        · omega
        · have := hd _ hmem2
          omega
      · have hgt : cur < d := by omega
        have hw : App.streakWalk (d :: rest) cur = App.streakWalk rest cur := by
          simp [App.streakWalk, h1, h2]
        rw [hw]
        obtain ⟨ih1, ih2⟩ := ih hrest cur
        constructor
        · intro i hi
          exact List.mem_cons_of_mem d (ih1 i hi)
        · intro hmem
          rcases List.mem_cons.mp hmem with heq | hmem2
          · omega
          · exact ih2 hmem2

theorem calculateStreak_hasEntry (entries : List MoodEntry) (today : Int) :
    (∀ i : Nat, i < App.calculateStreak entries today →
        App.hasEntryOn entries (today - (i : Int)) = true)
    ∧ App.hasEntryOn entries (today - (App.calculateStreak entries today : Int)) = false := by
  by_cases hemp : entries.length = 0
  · have hnil : entries = [] := List.length_eq_zero.mp hemp
    subst hnil
    refine ⟨?_, ?_⟩ <;> simp [App.calculateStreak, App.hasEntryOn]
  · have hcalc : App.calculateStreak entries today =
        App.streakWalk ((sortDescBy (fun e => e.date) entries).map (fun e => e.date)) today := by
      simp [App.calculateStreak, hemp]
    have hsort : List.Sorted (fun a b : Int => b ≤ a)
        ((sortDescBy (fun e => e.date) entries).map (fun e => e.date)) := by
      have h := sortDescBy_sorted (fun e : MoodEntry => e.date) entries
      exact List.pairwise_map.mpr h
    have hmem : ∀ m : Int,
        (m ∈ (sortDescBy (fun e => e.date) entries).map (fun e => e.date)) ↔
          App.hasEntryOn entries m = true := by
      intro m
      rw [List.mem_map, App.hasEntryOn, List.any_eq_true]
      constructor
      · rintro ⟨e, he, hdate⟩
        exact ⟨e, (mem_sortDescBy _).mp he, by simp [hdate]⟩
      · rintro ⟨e, he, hdate⟩
        exact ⟨e, (mem_sortDescBy _).mpr he, by simpa using hdate⟩
    obtain ⟨h1, h2⟩ := streakWalk_spec _ hsort today
    rw [hcalc]
    constructor
    · intro i hi
      exact (hmem _).mp (h1 i hi)
    · rw [← Bool.not_eq_true]
      intro hcontra
      exact h2 ((hmem _).mpr hcontra)

/-- Concrete unbroken three-day run used by the C2 example. -/
def streakRunExample : List MoodEntry :=
  [⟨0, 7, ⟨5, 5, 5, 5, 5⟩, ""⟩, ⟨-1, 6, ⟨5, 5, 5, 5, 5⟩, ""⟩, ⟨-2, 8, ⟨5, 5, 5, 5, 5⟩, ""⟩]

/-- C2: calculateStreak counts the consecutive calendar days ending at today
that carry an entry and stops at the first day without one: every day
strictly closer to today than the streak length has an entry, the day
exactly streak days back has none, a store without an entry for today
yields zero regardless of older entries, and the concrete run over today,
yesterday and the day before yields 3. -/
theorem calculateStreak_consecutive_run :
    (∀ (entries : List MoodEntry) (today : Int),
        (∀ i : Nat, i < App.calculateStreak entries today →
            App.hasEntryOn entries (today - (i : Int)) = true)
        ∧ App.hasEntryOn entries (today - (App.calculateStreak entries today : Int)) = false)
  ∧ (∀ (entries : List MoodEntry) (today : Int),
        App.hasEntryOn entries today = false → App.calculateStreak entries today = 0)
  ∧ App.calculateStreak streakRunExample 0 = 3 := by
  refine ⟨calculateStreak_hasEntry, ?_, by decide⟩
  intro entries today hnone
  by_contra hne
  have hpos : 0 < App.calculateStreak entries today := Nat.pos_of_ne_zero hne
  have h0 := (calculateStreak_hasEntry entries today).1 0 hpos
  rw [Int.ofNat_zero, sub_zero] at h0
  rw [hnone] at h0
  exact Bool.false_ne_true h0

/-- C2 witness: the gap day right behind the concrete three-day run has no
entry, and a store whose only entry is in the future yields streak zero. -/
theorem calculateStreak_consecutive_run_witness :
    App.hasEntryOn streakRunExample (0 - (App.calculateStreak streakRunExample 0 : Int)) = false
    ∧ App.calculateStreak [(⟨5, 7, ⟨5, 5, 5, 5, 5⟩, ""⟩ : MoodEntry)] 0 = 0 :=
  ⟨(calculateStreak_consecutive_run.1 streakRunExample 0).2,
   calculateStreak_consecutive_run.2.1 [⟨5, 7, ⟨5, 5, 5, 5, 5⟩, ""⟩] 0 (by decide)⟩

/-! ### C3: window of the period averages -/

theorem foldl_mood_sum :
    ∀ (l : List MoodEntry) (a : ℚ),
      l.foldl (fun acc e => acc + (e.overallMood : ℚ)) a =
        a + (l.map (fun e => (e.overallMood : ℚ))).sum := by
  intro l
  induction l with
  | nil => intro a; simp
  | cons x t ih => intro a; simp [ih]; ring

/-- The mean the C3 claim describes, stated from the words of the claim for
comparison with the code: overallMood averaged over exactly the entries
whose day-key lies in the inclusive window from today - w to today, the
empty window yielding the no-data sentinel. -/
def windowMeanInclusiveSpec (entries : List MoodEntry) (today w : Int) : Option ℚ :=
  let sel := entries.filter (fun e => decide (today - w ≤ e.date ∧ e.date ≤ today))
  if sel.length = 0 then none
  else some ((sel.map (fun e => (e.overallMood : ℚ))).sum / (sel.length : ℚ))

/-- The amended mean: overallMood averaged over the entries whose day-key is
at least today - w, with no upper bound, so day-keys after today do
contribute. -/
def windowMeanLowerSpec (entries : List MoodEntry) (today w : Int) : Option ℚ :=
  let sel := entries.filter (fun e => decide (today - w ≤ e.date))
  if sel.length = 0 then none
  else some ((sel.map (fun e => (e.overallMood : ℚ))).sum / (sel.length : ℚ))

/-- A store whose only entry carries a day-key five days after today = 0. -/
def futureEntryExample : List MoodEntry := [⟨5, 10, ⟨5, 5, 5, 5, 5⟩, "future"⟩]

/-- C3 counterexample: on a store holding one entry dated five days after
today, the code averages that future entry into the weekly figure while the
claimed inclusive window between today - 7 and today holds no entry at all,
so the weekly average does not equal the claimed windowed mean. -/
theorem periodAverage_inclusive_window_cex :
    App.periodAverage futureEntryExample 0 7 = some 10
    ∧ windowMeanInclusiveSpec futureEntryExample 0 7 = none
    ∧ App.periodAverage futureEntryExample 0 7 ≠ windowMeanInclusiveSpec futureEntryExample 0 7 := by
  have h1 : App.periodAverage futureEntryExample 0 7 = some 10 := by
    norm_num [App.periodAverage, futureEntryExample, List.filter]
  have h2 : windowMeanInclusiveSpec futureEntryExample 0 7 = none := by
    norm_num [windowMeanInclusiveSpec, futureEntryExample, List.filter]
  refine ⟨h1, h2, ?_⟩
  rw [h1, h2]
  simp

/-- Five distinct in-window days with moods 8, 6, 9, 5 and 7. -/
def weekAvgExample : List MoodEntry :=
  [⟨100, 8, ⟨5, 5, 5, 5, 5⟩, ""⟩, ⟨99, 6, ⟨5, 5, 5, 5, 5⟩, ""⟩,
   ⟨98, 9, ⟨5, 5, 5, 5, 5⟩, ""⟩, ⟨97, 5, ⟨5, 5, 5, 5, 5⟩, ""⟩,
   ⟨96, 7, ⟨5, 5, 5, 5, 5⟩, ""⟩]

/-- C3 amended: the weekly (w = 7) and monthly (w = 30) period averages
equal the arithmetic mean of overallMood over exactly the entries whose
day-key is at least today - w; the filter has no upper bound, so day-keys
after today are included.  Five in-window entries with moods 8, 6, 9, 5, 7
average to 7. -/
theorem periodAverage_lower_window_only :
    (∀ (entries : List MoodEntry) (today w : Int),
        App.periodAverage entries today w = windowMeanLowerSpec entries today w)
    ∧ App.periodAverage weekAvgExample 100 7 = some 7 := by
  constructor
  · intro entries today w
    simp only [App.periodAverage, windowMeanLowerSpec]
    by_cases hemp : entries.length = 0
    · rw [if_pos hemp]
      have hnil := List.length_eq_zero.mp hemp
      subst hnil
      simp
    · rw [if_neg hemp]
      by_cases hzero : (entries.filter (fun e => decide (today - w ≤ e.date))).length = 0
      · rw [if_neg (by omega :
            ¬ 0 < (entries.filter (fun e => decide (today - w ≤ e.date))).length),
          if_pos hzero]
      · rw [if_pos (Nat.pos_of_ne_zero hzero), if_neg hzero, foldl_mood_sum, zero_add]
  · norm_num [App.periodAverage, weekAvgExample, List.filter]

/-- C4: whenever the aggregation window (the code filter of the period
average) selects zero entries, both for the entirely empty store and for a
nonempty store with every entry outside the window, the period average is
the explicit no-data sentinel none, never the number zero and never any
numeric value at all. -/
theorem periodAverage_empty_window_sentinel (entries : List MoodEntry) (today w : Int)
    (h : entries.filter (fun e => decide (today - w ≤ e.date)) = []) :
    App.periodAverage entries today w = none
    ∧ ∀ q : ℚ, App.periodAverage entries today w ≠ some q := by
  have hmain : App.periodAverage entries today w = none := by
    simp only [App.periodAverage]
    by_cases hemp : entries.length = 0
    · rw [if_pos hemp]
    · rw [if_neg hemp, h]
      simp
  exact ⟨hmain, fun q => by rw [hmain]; simp⟩

/-- C4 witness: a nonempty store whose single entry lies far before the
weekly window yields the sentinel, and the empty store does as well. -/
theorem periodAverage_empty_window_sentinel_witness :
    App.periodAverage [⟨-100, 9, ⟨5, 5, 5, 5, 5⟩, "old"⟩] 0 7 = none
    ∧ App.periodAverage [] 0 30 = none :=
  ⟨(periodAverage_empty_window_sentinel [⟨-100, 9, ⟨5, 5, 5, 5, 5⟩, "old"⟩] 0 7 (by decide)).1,
   (periodAverage_empty_window_sentinel [] 0 30 (by decide)).1⟩

/-- The app.js sample store as it stands one day after the last sample:
entries on the five days before today = 10 and none for today itself or for
six days back. -/
def dailySeriesExampleApp : List MoodEntry :=
  [⟨9, 8, ⟨7, 8, 3, 9, 7⟩, ""⟩, ⟨8, 6, ⟨5, 6, 6, 7, 5⟩, ""⟩,
   ⟨7, 9, ⟨9, 9, 2, 8, 9⟩, ""⟩, ⟨6, 5, ⟨4, 5, 7, 5, 4⟩, ""⟩,
   ⟨5, 7, ⟨6, 7, 4, 7, 6⟩, ""⟩]

/-- The same five-day shape for the script.js variant (its sample moods are
8, 6, 9, 4, 7). -/
def dailySeriesExampleScript : List UserEntry :=
  [⟨"u_1", "u", "U", 9, 14, 30, "happy", 8, ⟨7, 8, 3, 9, 7⟩, ""⟩,
   ⟨"u_2", "u", "U", 8, 18, 15, "neutral", 6, ⟨5, 6, 6, 7, 5⟩, ""⟩,
   ⟨"u_3", "u", "U", 7, 10, 45, "excited", 9, ⟨9, 9, 2, 8, 9⟩, ""⟩,
   ⟨"u_4", "u", "U", 6, 20, 0, "anxious", 4, ⟨4, 5, 8, 5, 4⟩, ""⟩,
   ⟨"u_5", "u", "U", 5, 8, 20, "happy", 7, ⟨6, 7, 4, 7, 6⟩, ""⟩]

/-- C5: both daily series have exactly one slot per calendar day for the
last 7 days, oldest to newest; on a store covering only the five middle
days, the app.js variant maps the two dayless slots to the explicit no-data
marker as the claim requires, while the script.js variant fabricates the
midpoint value 5 for exactly those slots, contradicting the claim. -/
theorem prepareGraphData_daily_gap_vs_default :
    App.prepareGraphDataDaily dailySeriesExampleApp 10 =
      some [none, some 7, some 5, some 9, some 6, some 8, none]
    ∧ Script.prepareGraphDataDaily dailySeriesExampleScript 10 =
      [5, 7, 4, 9, 6, 8, 5] := by
  constructor <;> decide

/-- A seven-slot daily series whose interior slot 3 carries the no-data
marker while valid points exist on both sides. -/
def gapSeries : List (Option ℚ) :=
  [some 8, some 6, some 9, none, some 5, some 7, some 4]

/-- C6 counterexample: on the seven-slot series with slot 3 missing, the
path drawn by drawLineGraph contains the segment that connects the last
valid point before the gap (slot 2) directly to the first valid point after
it (slot 4); the claim says such a segment must never be drawn.  The app.js
renderer likewise sets the spanGaps flag of its charting library, bridging
gaps the same way. -/
theorem lineGraph_gap_spanned_cex :
    (Part000.plottedPoint 7 2 9, Part000.plottedPoint 7 4 5)
      ∈ Part000.pathSegments gapSeries := by
  have h : Part000.pathSegments gapSeries =
      [(Part000.plottedPoint 7 0 8, Part000.plottedPoint 7 1 6),
       (Part000.plottedPoint 7 1 6, Part000.plottedPoint 7 2 9),
       (Part000.plottedPoint 7 2 9, Part000.plottedPoint 7 4 5),
       (Part000.plottedPoint 7 4 5, Part000.plottedPoint 7 5 7),
       (Part000.plottedPoint 7 5 7, Part000.plottedPoint 7 6 4)] := rfl
  rw [h]
  simp

theorem getD_zip_tail {α : Type} [Inhabited α] :
    ∀ (l : List α) (k : Nat), k + 1 < l.length →
      (l.getD k default, l.getD (k + 1) default) ∈ l.zip l.tail := by
  intro l
  induction l with
  | nil => intro k h; simp at h
  | cons a t ih =>
    intro k h
    match t with
    | [] => simp at h
    | b :: t2 =>
      match k with
      | 0 => simp
      | j + 1 =>
        have hj : j + 1 < (b :: t2).length := by
          simp only [List.length_cons] at h ⊢
          omega
        have hmem := ih j hj
        simp only [List.getD_cons_succ]
        exact List.mem_cons_of_mem _ hmem

/-- C6 amended: the drawn path is one connected polyline through all valid
points in slot order: every two points that are consecutive in the
plotted-points list (which skips the missing slots) are joined by a drawn
segment, so a gap is spanned by a direct segment from the last valid point
before it to the first valid point after it rather than splitting the path
into disjoint pieces. -/
theorem lineGraph_connects_consecutive_valid (data : List (Option ℚ)) (k : Nat)
    (h : k + 1 < (Part000.linePoints data).length) :
    ((Part000.linePoints data).getD k default,
      (Part000.linePoints data).getD (k + 1) default)
      ∈ Part000.pathSegments data := by
  unfold Part000.pathSegments
  exact getD_zip_tail _ k h

/-- C6 amended witness: the first two plotted points of the gapped series
are joined by a drawn segment. -/
theorem lineGraph_connects_consecutive_valid_witness :
    ((Part000.linePoints gapSeries).getD 0 default,
      (Part000.linePoints gapSeries).getD 1 default)
      ∈ Part000.pathSegments gapSeries :=
  lineGraph_connects_consecutive_valid gapSeries 0 (by decide)

/-! ### C7 helper lemmas: the scope table and the write frame of submitMood -/

theorem tblGet_cons (p : String × List UserEntry) (rest : List (String × List UserEntry))
    (k : String) :
    Script.tblGet (p :: rest) k = if p.1 = k then some p.2 else Script.tblGet rest k := by
  by_cases hp : p.1 = k <;> simp [Script.tblGet, List.find?, hp]

theorem tblGet_tblSet_self (k : String) (v : List UserEntry) :
    ∀ t, Script.tblGet (Script.tblSet t k v) k = some v := by
  intro t
  induction t with
  | nil => simp [Script.tblGet, Script.tblSet, List.find?]
  | cons p rest ih =>
    by_cases hp : p.1 = k
    · simp [Script.tblSet, hp, tblGet_cons]
    · rw [Script.tblSet, if_neg hp, tblGet_cons, if_neg hp]
      exact ih

theorem tblGet_tblSet_ne (k k' : String) (v : List UserEntry) (h : k' ≠ k) :
    ∀ t, Script.tblGet (Script.tblSet t k v) k' = Script.tblGet t k' := by
  intro t
  have hkk : ¬ k = k' := fun a => h a.symm
  induction t with
  | nil => simp [Script.tblGet, Script.tblSet, List.find?, hkk]
  | cons p rest ih =>
    by_cases hp : p.1 = k
    · rw [Script.tblSet, if_pos hp, tblGet_cons, tblGet_cons, if_neg hkk, hp, if_neg hkk]
    · rw [Script.tblSet, if_neg hp, tblGet_cons, tblGet_cons]
      by_cases hp2 : p.1 = k'
      · rw [if_pos hp2, if_pos hp2]
      · rw [if_neg hp2, if_neg hp2]
        exact ih

theorem submitMood_preserves (st : Script.AppState) (sel : Option Script.MoodInput)
    (u : User) (hcur : st.currentUser = some u) (A : String) (hne : u.id ≠ A) :
    (Script.submitMood st sel).currentUser = some u
    ∧ (Script.submitMood st sel).users = st.users
    ∧ Script.tblGet (Script.submitMood st sel).allUserData A =
        Script.tblGet st.allUserData A := by
  cases sel with
  | none => simp [Script.submitMood, hcur]
  | some c =>
    simp only [Script.submitMood, hcur]
    cases hup : Script.upsertUser st.moodEntries (Script.mkUserEntry u c) u.id with
    | none => exact ⟨hcur, rfl, rfl⟩
    | some l =>
      exact ⟨rfl, rfl, tblGet_tblSet_ne u.id A _ (Ne.symm hne) st.allUserData⟩

theorem foldl_submitMood_preserves (u : User) (A : String) (hne : u.id ≠ A) :
    ∀ (ws : List (Option Script.MoodInput)) (st : Script.AppState),
      st.currentUser = some u →
      (ws.foldl Script.submitMood st).currentUser = some u
      ∧ (ws.foldl Script.submitMood st).users = st.users
      ∧ Script.tblGet (ws.foldl Script.submitMood st).allUserData A =
          Script.tblGet st.allUserData A := by
  intro ws
  induction ws with
  | nil => intro st h; exact ⟨h, rfl, rfl⟩
  | cons w rest ih =>
    intro st h
    have h1 := submitMood_preserves st w u h A hne
    have h2 := ih (Script.submitMood st w) h1.1
    exact ⟨h2.1, h2.2.1.trans h1.2.1, h2.2.2.trans h1.2.2⟩

/-- C7: writing under scope A, switching to scope B, performing any sequence
of submitMood writes there and switching back to A restores exactly the
entries of scope A, with none of the entries written under B present; each
switch saves the outgoing working copy into the scope table before loading
the incoming scope. -/
theorem scope_isolation_round_trip
    (s : Script.AppState) (uA uB : User) (writes : List (Option Script.MoodInput))
    (hcur : s.currentUser = some uA)
    (hfindB : s.users.find? (fun u => decide (u.id = uB.id)) = some uB)
    (hfindA : s.users.find? (fun u => decide (u.id = uA.id)) = some uA)
    (hne : uA.id ≠ uB.id)
    (htag : ∀ e ∈ s.moodEntries, e.userId = uA.id) :
    (Script.selectUser (writes.foldl Script.submitMood
        (Script.selectUser s uB.id)) uA.id).moodEntries = s.moodEntries
    ∧ Script.tblGet (Script.selectUser (writes.foldl Script.submitMood
        (Script.selectUser s uB.id)) uA.id).allUserData uA.id = some s.moodEntries := by
  have hs1cur : (Script.selectUser s uB.id).currentUser = some uB := by
    simp only [Script.selectUser, hfindB, hcur]
  have hs1users : (Script.selectUser s uB.id).users = s.users := by
    simp only [Script.selectUser, hfindB, hcur]
  have hs1tbl : Script.tblGet (Script.selectUser s uB.id).allUserData uA.id
      = some s.moodEntries := by
    simp only [Script.selectUser, hfindB, hcur]
    rw [if_pos hne]
    exact tblGet_tblSet_self uA.id s.moodEntries s.allUserData
  obtain ⟨hs2cur, hs2users, hs2tbl⟩ :=
    foldl_submitMood_preserves uB uA.id (Ne.symm hne) writes
      (Script.selectUser s uB.id) hs1cur
  have hfindA2 : (writes.foldl Script.submitMood
      (Script.selectUser s uB.id)).users.find? (fun u => decide (u.id = uA.id))
        = some uA := by
    rw [hs2users, hs1users]; exact hfindA
  have htblA : Script.tblGet (writes.foldl Script.submitMood
      (Script.selectUser s uB.id)).allUserData uA.id = some s.moodEntries :=
    hs2tbl.trans hs1tbl
  have hinv : s.moodEntries.filter
      (fun e => decide (e.userId ≠ "") && decide (e.userId ≠ uA.id)) = [] := by
    rw [List.filter_eq_nil_iff]
    intro e he
    simp [htag e he]
  generalize hgen : List.foldl Script.submitMood (Script.selectUser s uB.id) writes = s2
    at hfindA2 hs2cur htblA ⊢
  simp only [Script.selectUser, hfindA2, hs2cur]
  rw [if_pos (Ne.symm hne), tblGet_tblSet_ne uB.id uA.id _ hne, htblA]
  simp only [Option.getD_some]
  rw [hinv]
  simp

/-- Concrete scope-A owner for the C7 witness. -/
def userA : User := ⟨"A", "Alice", "x"⟩

/-- Concrete scope-B owner for the C7 witness. -/
def userB : User := ⟨"B", "Bob", "y"⟩

/-- Three entries written under scope A. -/
def entriesA : List UserEntry :=
  [⟨"A_1", "A", "Alice", 3, 9, 0, "happy", 8, ⟨5, 5, 5, 5, 5⟩, ""⟩,
   ⟨"A_2", "A", "Alice", 2, 9, 0, "neutral", 6, ⟨5, 5, 5, 5, 5⟩, ""⟩,
   ⟨"A_3", "A", "Alice", 1, 9, 0, "happy", 7, ⟨5, 5, 5, 5, 5⟩, ""⟩]

/-- The state after scope A wrote its three entries. -/
def stateA : Script.AppState :=
  ⟨[userA, userB], [("A", entriesA), ("B", [])], some userA, entriesA⟩

/-- Two submissions performed under scope B. -/
def writesB : List (Option Script.MoodInput) :=
  [some ⟨"happy", 9, 5, 5, 5, 5, 5, "b one", 3, 10, 0, "111"⟩,
   some ⟨"neutral", 5, 5, 5, 5, 5, 5, "b two", 4, 11, 0, "222"⟩]

/-- C7 witness: the concrete A-B-A round trip with two writes under B hands
scope A exactly its original three entries back. -/
theorem scope_isolation_round_trip_witness :
    (Script.selectUser (writesB.foldl Script.submitMood
        (Script.selectUser stateA userB.id)) userA.id).moodEntries = entriesA
    ∧ Script.tblGet (Script.selectUser (writesB.foldl Script.submitMood
        (Script.selectUser stateA userB.id)) userA.id).allUserData userA.id
      = some entriesA :=
  scope_isolation_round_trip stateA userA userB writesB rfl (by decide) (by decide)
    (by decide) (by decide)

/-! ### C8 helper: membership characterization of the history pipeline -/

theorem displayHistory_mem_iff (entries : List MoodEntry) (filt term sortBy : String)
    (now : ℚ) (e : MoodEntry) :
    e ∈ Part000.displayHistory entries filt term sortBy now ↔
      e ∈ entries ∧ Part000.filterPred filt now e = true
        ∧ Part000.searchPred term e = true := by
  by_cases hemp : entries.length = 0
  · have hnil := List.length_eq_zero.mp hemp
    subst hnil
    simp [Part000.displayHistory]
  · simp only [Part000.displayHistory, Part000.filterPred, Part000.searchPred, if_neg hemp]
    split_ifs <;>
      simp [mem_sortDescBy, mem_sortAscBy, List.mem_filter, and_assoc] <;>
      tauto

/-- C8 amended: the history pipeline applies one selected filter at a time
(the date-range options and the mood-threshold options are mutually
exclusive alternatives of a single selector) combined by AND with the
free-text search over notes; the output holds exactly the store entries
satisfying the selected filter and the search, and when nothing satisfies
them the pipeline returns the empty sequence without error. -/
theorem displayHistory_single_filter_AND_search :
    (∀ (entries : List MoodEntry) (filt term sortBy : String) (now : ℚ) (e : MoodEntry),
        e ∈ Part000.displayHistory entries filt term sortBy now ↔
          e ∈ entries ∧ Part000.filterPred filt now e = true
            ∧ Part000.searchPred term e = true)
    ∧ (∀ (entries : List MoodEntry) (filt term sortBy : String) (now : ℚ),
        (∀ e ∈ entries, ¬(Part000.filterPred filt now e = true
            ∧ Part000.searchPred term e = true)) →
        Part000.displayHistory entries filt term sortBy now = []) := by
  refine ⟨displayHistory_mem_iff, ?_⟩
  intro entries filt term sortBy now hnone
  rw [List.eq_nil_iff_forall_not_mem]
  intro e hmem
  obtain ⟨he, hf, hs⟩ := (displayHistory_mem_iff entries filt term sortBy now e).mp hmem
  exact hnone e he ⟨hf, hs⟩

/-- C8 amended witness: on a concrete store where no entry reaches the good
threshold, the good filter yields the empty sequence. -/
theorem displayHistory_single_filter_AND_search_witness :
    Part000.displayHistory [⟨99, 2, ⟨5, 5, 5, 5, 5⟩, ""⟩] "good" "" "newest" 100 = [] :=
  displayHistory_single_filter_AND_search.2 [⟨99, 2, ⟨5, 5, 5, 5, 5⟩, ""⟩]
    "good" "" "newest" 100 (by decide)

/-- Entry inside the last-7-days range and at the good threshold. -/
def histRecentGood : MoodEntry := ⟨99, 9, ⟨5, 5, 5, 5, 5⟩, ""⟩

/-- Entry at the good threshold but far outside the range. -/
def histOldGood : MoodEntry := ⟨50, 8, ⟨5, 5, 5, 5, 5⟩, ""⟩

/-- Entry inside the range but below the good threshold. -/
def histRecentBad : MoodEntry := ⟨98, 2, ⟨5, 5, 5, 5, 5⟩, ""⟩

def histEntries : List MoodEntry := [histRecentGood, histOldGood, histRecentBad]

/-- C8 counterexample: with now = 100, the only entry satisfying both the
last-7-days range and the good threshold is histRecentGood, yet no filter
selection of the pipeline returns exactly that set: the range filters keep
the bad recent entry, the mood filters ignore the range, and the all filter
keeps everything, so date-range and mood-threshold are never applied
together as the claim asserts. -/
theorem history_filter_no_AND_cex :
    Part000.displayHistory histEntries "all" "" "newest" 100 ≠ [histRecentGood]
    ∧ Part000.displayHistory histEntries "week" "" "newest" 100 ≠ [histRecentGood]
    ∧ Part000.displayHistory histEntries "month" "" "newest" 100 ≠ [histRecentGood]
    ∧ Part000.displayHistory histEntries "good" "" "newest" 100 ≠ [histRecentGood]
    ∧ Part000.displayHistory histEntries "tough" "" "newest" 100 ≠ [histRecentGood] := by
  refine ⟨?_, ?_, ?_, ?_, ?_⟩
  · intro heq
    have hx : histRecentBad ∈ Part000.displayHistory histEntries "all" "" "newest" 100 :=
      (displayHistory_mem_iff _ _ _ _ _ _).mpr
        ⟨by simp [histEntries], by decide, by decide⟩
    rw [heq] at hx
    simp [histRecentBad, histRecentGood] at hx
  · intro heq
    have hx : histRecentBad ∈ Part000.displayHistory histEntries "week" "" "newest" 100 :=
      (displayHistory_mem_iff _ _ _ _ _ _).mpr
        ⟨by simp [histEntries], by norm_num [Part000.filterPred, histRecentBad], by decide⟩
    rw [heq] at hx
    simp [histRecentBad, histRecentGood] at hx
  · intro heq
    have hx : histRecentBad ∈ Part000.displayHistory histEntries "month" "" "newest" 100 :=
      (displayHistory_mem_iff _ _ _ _ _ _).mpr
        ⟨by simp [histEntries], by norm_num [Part000.filterPred, histRecentBad], by decide⟩
    rw [heq] at hx
    simp [histRecentBad, histRecentGood] at hx
  · intro heq
    have hx : histOldGood ∈ Part000.displayHistory histEntries "good" "" "newest" 100 :=
      (displayHistory_mem_iff _ _ _ _ _ _).mpr
        ⟨by simp [histEntries], by decide, by decide⟩
    rw [heq] at hx
    simp [histOldGood, histRecentGood] at hx
  · intro heq
    have hx : histRecentGood ∈ Part000.displayHistory histEntries "tough" "" "newest" 100 := by
      rw [heq]; simp
    have h2 := ((displayHistory_mem_iff _ _ _ _ _ _).mp hx).2.1
    revert h2
    decide

/-- C9: the aggregation and query computations (streak, statistics bundle
with period and attribute averages, filtered and sorted history view) are
reads: as state transformers over the store they return the store exactly
as it was.  The source functions copy the array before sorting and never
assign the store, which is what these transformers translate. -/
theorem query_ops_preserve_store :
    (∀ (s : TrackerState) (today : Int), (calculateStreakOp s today).1 = s)
    ∧ (∀ (s : TrackerState) (today : Int), (updateStatisticsOp s today).1 = s)
    ∧ (∀ (s : TrackerState) (filt term sortBy : String) (now : ℚ),
        (displayHistoryOp s filt term sortBy now).1 = s) :=
  ⟨fun _ _ => rfl, fun _ _ => rfl, fun _ _ _ _ _ => rfl⟩

/-- C10: every store write re-establishes the newest-first order before
returning: app.js saveEntry sorts unconditionally; script.js submitMood
sorts on its write branch and leaves the store untouched on its guard
branches; both sample seeders sort what they seed and keep a nonempty store
as it is.  So descending day-key order is preserved by every mutating
operation from the sorted empty initial store on. -/
theorem store_sorted_after_writes :
    (∀ (s : List MoodEntry) (e : MoodEntry),
        List.Sorted (keyGe (fun x : MoodEntry => x.date)) (App.saveEntry s e))
    ∧ (∀ (s : List MoodEntry) (today : Int),
        List.Sorted (keyGe (fun x : MoodEntry => x.date)) s →
        List.Sorted (keyGe (fun x : MoodEntry => x.date)) (App.addSampleData s today))
    ∧ (∀ (st : Script.AppState) (sel : Option Script.MoodInput),
        List.Sorted (keyGe (fun x : UserEntry => x.date)) st.moodEntries →
        List.Sorted (keyGe (fun x : UserEntry => x.date))
          (Script.submitMood st sel).moodEntries)
    ∧ (∀ (st : Script.AppState) (today : Int),
        List.Sorted (keyGe (fun x : UserEntry => x.date)) st.moodEntries →
        List.Sorted (keyGe (fun x : UserEntry => x.date))
          (Script.addSampleData st today).moodEntries) := by
  refine ⟨?_, ?_, ?_, ?_⟩
  · intro s e
    exact sortDescBy_sorted _ _
  · intro s today h
    by_cases hlen : 0 < s.length
    · simpa [App.addSampleData, hlen] using h
    · simp only [App.addSampleData, if_neg hlen]
      exact sortDescBy_sorted _ _
  · intro st sel h
    cases hcu : st.currentUser with
    | none => simpa [Script.submitMood, hcu] using h
    | some u =>
      cases sel with
      | none => simpa [Script.submitMood, hcu] using h
      | some c =>
        simp only [Script.submitMood, hcu]
        cases hup : Script.upsertUser st.moodEntries (Script.mkUserEntry u c) u.id with
        | none => exact h
        | some l => exact sortDescBy_sorted _ _
  · intro st today h
    cases hcu : st.currentUser with
    | none => simpa [Script.addSampleData, hcu] using h
    | some u =>
      by_cases hlen : 0 < st.moodEntries.length
      · simpa [Script.addSampleData, hcu, hlen] using h
      · simp only [Script.addSampleData, hcu, if_neg hlen]
        exact sortDescBy_sorted _ _

/-- C10 witness: seeding the empty store yields a store sorted newest
first. -/
theorem store_sorted_after_writes_witness :
    List.Sorted (keyGe (fun x : MoodEntry => x.date)) (App.addSampleData [] 0) :=
  store_sorted_after_writes.2.1 [] 0 List.sorted_nil
